import Mathlib

/-!
# Verification of the astc-encoder CLI image core

A shallow embedding of `Source/astcenccli_internal.h` and of the image
container / conversion / padding / metrics operations it declares.  The
header gives the data model (`astc_codec_image`, `cli_config_options`) and
the signatures; the operation bodies live in other translation units, so
each operation below is modelled from the specification's description of
it, as noted in its doc comment.

Machine integers are modelled as `Nat` (the source stores all sizes and
samples in non-negative ranges: `uint8_t`, `uint16_t`, and `int` fields
documented as already validated non-negative); sample grids behind the
`uint8_t***` / `uint16_t***` pointers are modelled as total functions
`Nat → Nat → Nat → Texel Nat` indexed z, y, x over the padded extents,
with a null pointer modelled as `Option.none`.
-/

set_option autoImplicit false

/-- One interleaved 4-channel sample (r, g, b, a), as stored at
consecutive byte/short offsets `4*x .. 4*x+3` in the source arrays. -/
structure Texel (α : Type) where
  r : α
  g : α
  b : α
  a : α
deriving DecidableEq, Repr

/-- Modelled from the spec: the swizzle element domain of `astcenc.h`
(missing from the provided sources); §3 lists the per-slot domain
\x7bR,G,B,A,0,1,Z\x7d. -/
inductive astcenc_swz where
  | R
  | G
  | B
  | A
  | ZERO
  | ONE
  | Z
deriving DecidableEq, Repr

/-- Modelled from the spec: the 4-slot channel swizzle record of
`astcenc.h` (missing from the provided sources), one slot per output
channel. -/
structure astcenc_swizzle where
  r : astcenc_swz
  g : astcenc_swz
  b : astcenc_swz
  a : astcenc_swz
deriving DecidableEq, Repr

/-- Embedding of `struct astc_codec_image` (astcenccli_internal.h:34-50).
`data8`/`data16` are the two nullable storage arrays (z,y,x indexed over
the padded extents); `xsize`/`ysize`/`zsize` the logical extents;
`padding` the uniform border width; the three statistics pointers and
`linearize_srgb` mirror the remaining fields. -/
structure astc_codec_image where
  data8 : Option (Nat → Nat → Nat → Texel Nat)
  data16 : Option (Nat → Nat → Nat → Texel Nat)
  xsize : Nat
  ysize : Nat
  zsize : Nat
  padding : Nat
  input_averages : Option (Nat → Texel ℚ)
  input_variances : Option (Nat → Texel ℚ)
  input_alpha_averages : Option (Nat → ℚ)
  linearize_srgb : Int

/-- Embedding of `struct cli_config_options` (astcenccli_internal.h:53-76):
seven `int` fields and the two swizzle fields carrying the in-class
default initializers `{ASTCENC_SWZ_R, ASTCENC_SWZ_G, ASTCENC_SWZ_B,
ASTCENC_SWZ_A}`. -/
structure cli_config_options where
  array_size : Int
  silentmode : Int
  y_flip : Int
  linearize_srgb : Int
  thread_count : Int
  low_fstop : Int
  high_fstop : Int
  swz_encode : astcenc_swizzle :=
    ⟨astcenc_swz.R, astcenc_swz.G, astcenc_swz.B, astcenc_swz.A⟩
  swz_decode : astcenc_swizzle :=
    ⟨astcenc_swz.R, astcenc_swz.G, astcenc_swz.B, astcenc_swz.A⟩
deriving DecidableEq, Repr

/-- The identity channel mapping: each slot selects its own channel. -/
def identity_swizzle : astcenc_swizzle :=
  ⟨astcenc_swz.R, astcenc_swz.G, astcenc_swz.B, astcenc_swz.A⟩

/-- C10: a `cli_config_options` record built with the in-class default
member initializers (only the plain `int` fields supplied, as the
command-line reader does before parsing) carries the identity mapping
R,G,B,A in both `swz_encode` and `swz_decode`. -/
theorem cli_config_options_default_swizzles_identity
    (a s y l t lo hi : Int) :
    ({ array_size := a, silentmode := s, y_flip := y, linearize_srgb := l,
       thread_count := t, low_fstop := lo, high_fstop := hi } :
        cli_config_options).swz_encode = identity_swizzle ∧
    ({ array_size := a, silentmode := s, y_flip := y, linearize_srgb := l,
       thread_count := t, low_fstop := lo, high_fstop := hi } :
        cli_config_options).swz_decode = identity_swizzle := by
  exact ⟨rfl, rfl⟩

/-- The all-zero sample. -/
def zero_texel : Texel Nat := ⟨0, 0, 0, 0⟩

/-- Apply a function to every channel of a texel. -/
def texel_map {α β : Type} (f : α → β) (t : Texel α) : Texel β :=
  ⟨f t.r, f t.g, f t.b, f t.a⟩

/-- Modelled from the spec: `alloc_image` (declared at
astcenccli_internal.h:108-113, body not in the provided sources) —
"allocates a Pixel Buffer in the requested storage mode … The returned
buffer's interior is zero-filled" (§4.1).  Bitness 8 populates `data8`,
any other requested bitness (the callers pass 16) populates `data16`;
storage is zero-filled. -/
def alloc_image (bitness xsize ysize zsize padding : Nat) : astc_codec_image :=
  { data8 := if bitness = 8 then some (fun _ _ _ => zero_texel) else none,
    data16 := if bitness = 8 then none else some (fun _ _ _ => zero_texel),
    xsize := xsize, ysize := ysize, zsize := zsize, padding := padding,
    input_averages := none, input_variances := none,
    input_alpha_averages := none, linearize_srgb := 0 }

/-- The interior x (or y) coordinate nearest to the padded-grid
coordinate `x`, for an interior span `[p, p + size)`. -/
def clamp_to_interior (p size x : Nat) : Nat :=
  min (max x p) (p + size - 1)

/-- Modelled from the spec: the per-array body of `fill_image_padding_area`
(declared at astcenccli_internal.h:118-119, body not in the provided
sources) — "for every 2D slice, replicates edge texels outward: each
border cell inherits the value of the nearest interior cell" (§4.2).
Every cell of every slice's padded grid receives the value of the nearest
interior cell (interior cells are their own nearest interior cell, so the
interior is unchanged); cells outside the padded grid are not written. -/
def fill_data (p xsize ysize zsize : Nat)
    (d : Nat → Nat → Nat → Texel Nat) : Nat → Nat → Nat → Texel Nat :=
  fun z y x =>
    if z < zsize ∧ y < ysize + 2 * p ∧ x < xsize + 2 * p then
      d z (clamp_to_interior p ysize y) (clamp_to_interior p xsize x)
    else
      d z y x

/-- Modelled from the spec: `fill_image_padding_area`
(astcenccli_internal.h:118-119; §4.2) — applies the edge-replication
fill to whichever storage array is populated, leaving the dimensions,
padding, statistics and flags untouched. -/
def fill_image_padding_area (img : astc_codec_image) : astc_codec_image :=
  { img with
    data8 := img.data8.map (fill_data img.padding img.xsize img.ysize img.zsize),
    data16 := img.data16.map (fill_data img.padding img.xsize img.ysize img.zsize) }

/-- Read the interior texel at logical coordinates (z, y, x) from
whichever storage array is populated. -/
def interior_texel (img : astc_codec_image) (z y x : Nat) : Texel Nat :=
  match img.data8, img.data16 with
  | some d, _ => d z (y + img.padding) (x + img.padding)
  | none, some d => d z (y + img.padding) (x + img.padding)
  | none, none => zero_texel

/-- The sample value denoting full opacity in the buffer's storage mode:
255 for 8-bit storage, the 16-bit encoding of 1.0 (0x3C00) otherwise. -/
def alpha_one (img : astc_codec_image) : Nat :=
  if img.data8.isSome then 255 else 15360

/-- Does `p` hold of every interior texel of `img`? -/
def all_interior_texels (img : astc_codec_image) (p : Texel Nat → Bool) : Bool :=
  (List.range img.zsize).all fun z =>
    (List.range img.ysize).all fun y =>
      (List.range img.xsize).all fun x =>
        p (interior_texel img z y x)

/-- Modelled from the spec: `determine_image_channels`
(astcenccli_internal.h:121-122, body not in the provided sources) —
"inspects sample data to report the number of color channels actually in
use — 1 (luminance-like …), 2, 3, or 4 — by sampling enough texels to
detect whether green/blue/alpha carry independent information" (§4.1).
Green/blue carry no independent information when every interior texel
has G == R and B == R (luminance-like); alpha carries no information
when every interior texel's alpha is the full-opacity value.  The count
is 1, plus 2 when green/blue carry information, plus 1 when alpha does,
yielding 1, 2, 3 or 4. -/
def determine_image_channels (img : astc_codec_image) : Nat :=
  1 +
  (if all_interior_texels img (fun t => t.g == t.r && t.b == t.r) then 0 else 2) +
  (if all_interior_texels img (fun t => t.a == alpha_one img) then 0 else 1)

/-- The extension of a filename: the text after the last dot (the whole
name when there is no dot, which then matches no known format). -/
def filename_extension (s : String) : String :=
  String.mk ((s.data.splitOn '.').getLastD [])

/-- Modelled from the spec: `get_output_filename_enforced_bitness`
(astcenccli_internal.h:104-105, body not in the provided sources) — "a
static format-capability lookup" on the target filename's extension
(§4.4).  The spec fixes the lookup's shape but not the concrete format
table, so the set of extensions of formats supporting high bit depth is
a parameter `hi_depth_formats`; every other extension — the 8-bit-only
formats and the unknown ones alike — yields the conservative 8. -/
def get_output_filename_enforced_bitness
    (hi_depth_formats : List String) (filename : String) : Nat :=
  if filename_extension filename ∈ hi_depth_formats then 16 else 8

/-- The input row feeding output row `y` of a `ysize`-row image:
row `ysize - 1 - y` when flipping, row `y` otherwise (§4.3: "row
`ysize-1-i` of input becomes row `i` of output when `y_flip` is set"). -/
def source_row (ysize : Nat) (y_flip : Bool) (y : Nat) : Nat :=
  if y_flip then ysize - 1 - y else y

/-- Modelled from the spec: `astc_img_from_unorm8x4_array`
(astcenccli_internal.h:133-138, body not in the provided sources) —
`from_flat` of §4.3: a flat row-major interleaved 4-channel 8-bit array
becomes the interior of a fresh one-slice 8-bit buffer with the given
padding, with optional row flipping; the border is left for the padding
synthesizer (modelled as zero). -/
def astc_img_from_unorm8x4_array (s : List (Texel Nat))
    (xsize ysize padding : Nat) (y_flip : Bool) : astc_codec_image :=
  { data8 := some fun _z y x =>
      if padding ≤ y ∧ y < padding + ysize ∧ padding ≤ x ∧ x < padding + xsize then
        s.getD (source_row ysize y_flip (y - padding) * xsize + (x - padding)) zero_texel
      else zero_texel,
    data16 := none,
    xsize := xsize, ysize := ysize, zsize := 1, padding := padding,
    input_averages := none, input_variances := none,
    input_alpha_averages := none, linearize_srgb := 0 }

/-- Row-major flattening of the `h`-row, `w`-column grid `g`:
row 0 first, each row listing `g y 0 .. g y (w-1)`. -/
def tile_rows {α : Type} (w : Nat) (g : Nat → Nat → α) : Nat → List α
  | 0 => []
  | h + 1 => tile_rows w g h ++ (List.range w).map (g h)

/-- Modelled from the spec: `unorm8x4_array_from_astc_img`
(astcenccli_internal.h:146-148, body not in the provided sources) —
`to_flat` of §4.3: emits the interior of the buffer's 8-bit storage as a
flat row-major 4-channel array, with optional row flipping; "always
emits 4 channels per texel". -/
def unorm8x4_array_from_astc_img (img : astc_codec_image)
    (y_flip : Bool) : List (Texel Nat) :=
  tile_rows img.xsize
    (fun y x =>
      (img.data8.getD fun _ _ _ => zero_texel) 0
        (source_row img.ysize y_flip y + img.padding) (x + img.padding))
    img.ysize

/-- Modelled from the spec: `astc_img_from_floatx4_array`
(astcenccli_internal.h:126-131, body not in the provided sources) —
the float `from_flat` of §4.3, which stores into the 16-bit mode.  The
per-sample 32-bit-float-to-16-bit conversion is not described beyond the
"within 1 ULP-equivalent rounding" bound of §8, so it is abstracted as
the encoding parameter `enc`; float sample values are modelled as exact
rationals. -/
def astc_img_from_floatx4_array (enc : ℚ → Nat) (s : List (Texel ℚ))
    (xsize ysize padding : Nat) (y_flip : Bool) : astc_codec_image :=
  { data8 := none,
    data16 := some fun _z y x =>
      if padding ≤ y ∧ y < padding + ysize ∧ padding ≤ x ∧ x < padding + xsize then
        texel_map enc
          (s.getD (source_row ysize y_flip (y - padding) * xsize + (x - padding))
            ⟨0, 0, 0, 0⟩)
      else zero_texel,
    xsize := xsize, ysize := ysize, zsize := 1, padding := padding,
    input_averages := none, input_variances := none,
    input_alpha_averages := none, linearize_srgb := 0 }

/-- Modelled from the spec: `floatx4_array_from_astc_img`
(astcenccli_internal.h:142-144, body not in the provided sources) — the
float `to_flat` of §4.3, reading the 16-bit storage back through the
abstract 16-bit-to-float decoding `dec`. -/
def floatx4_array_from_astc_img (dec : Nat → ℚ) (img : astc_codec_image)
    (y_flip : Bool) : List (Texel ℚ) :=
  tile_rows img.xsize
    (fun y x =>
      texel_map dec
        ((img.data16.getD fun _ _ _ => zero_texel) 0
          (source_row img.ysize y_flip y + img.padding) (x + img.padding)))
    img.ysize

/-- Channel `c` (0=r, 1=g, 2=b, 3=a) of a texel; channels past 3 read 0. -/
def texel_channel (t : Texel ℚ) : Nat → ℚ
  | 0 => t.r
  | 1 => t.g
  | 2 => t.b
  | 3 => t.a
  | _ + 4 => 0

/-- The interior sample of `img` at (z, y, x), channel `c`, normalized to
[0, 1] "treating each channel as 8-bit normalized regardless of the
buffer's storage mode (16-bit sources are rescaled)" (§4.5). -/
def sample_norm (img : astc_codec_image) (c z y x : Nat) : ℚ :=
  match img.data8, img.data16 with
  | some d, _ =>
      texel_channel (texel_map (fun v : Nat => (v : ℚ) / 255)
        (d z (y + img.padding) (x + img.padding))) c
  | none, some d =>
      texel_channel (texel_map (fun v : Nat => (v : ℚ) / 65535)
        (d z (y + img.padding) (x + img.padding))) c
  | none, none => 0

/-- Re-exposure of a normalized linear sample at integer f-stop `n`:
"an f-stop of `n` scales all linear samples by `2^n` before clamping to
display range" (§4.5). -/
def expose (n : Int) (q : ℚ) : ℚ :=
  min 1 (max 0 ((2 : ℚ) ^ n * q))

/-- Summed squared error between the two images on channel `c`, over the
logical extent of `img1` (§4.5 requires identical extents), after
passing each sample through `view` (identity for the LDR metrics, an
`expose` for the HDR sweep). -/
def channel_sq_error (view : ℚ → ℚ) (img1 img2 : astc_codec_image)
    (c : Nat) : ℚ :=
  ∑ z ∈ Finset.range img1.zsize, ∑ y ∈ Finset.range img1.ysize,
    ∑ x ∈ Finset.range img1.xsize,
      (view (sample_norm img1 c z y x) - view (sample_norm img2 c z y x)) ^ 2

/-- The number of texels in the logical extent of `img`, as a rational. -/
def texel_count (img : astc_codec_image) : ℚ :=
  ((img.xsize * img.ysize * img.zsize : Nat) : ℚ)

/-- Mean squared error across the first `input_components` channels. -/
def mse_combined_of (view : ℚ → ℚ) (input_components : Nat)
    (img1 img2 : astc_codec_image) : ℚ :=
  (∑ c ∈ Finset.range input_components, channel_sq_error view img1 img2 c) /
    (texel_count img1 * input_components)

/-- PSNR derived from an MSE: `⊤` — the sentinel denoting +infinity — at
zero error, and the logarithmic transform of the MSE otherwise.  The
transform (a floating `10*log10(peak²/mse)` in the source tree) is the
abstract parameter `log_transform`. -/
def psnr_of (log_transform : ℚ → ℚ) (mse : ℚ) : WithTop ℚ :=
  if mse = 0 then ⊤ else (log_transform mse : ℚ)

/-- The error-metric report of §6: "exposes at minimum
`mse_per_channel[0..input_components)`, `mse_combined`, `psnr_combined`,
and, in HDR mode, `psnr_per_fstop[fstop_lo..fstop_hi]`". -/
structure error_metrics_report where
  mse_per_channel : Nat → ℚ
  mse_combined : ℚ
  psnr_combined : WithTop ℚ
  psnr_per_fstop : Int → WithTop ℚ

/-- Modelled from the spec: the metric values computed by
`compute_error_metrics` (declared at astcenccli_internal.h:170-176, body
not in the provided sources), per §4.5: per-channel and combined MSE
over the first `input_components` channels with every channel treated as
8-bit normalized, PSNR as the logarithmic transform of MSE (`⊤` at zero
error), and — when HDR metrics are requested — a PSNR per integer
f-stop in `[fstop_lo, fstop_hi]` after re-exposing both images. -/
def compute_error_metrics (log_transform : ℚ → ℚ)
    (compute_hdr_metrics : Bool) (input_components : Nat)
    (img1 img2 : astc_codec_image) (fstop_lo fstop_hi : Int) :
    error_metrics_report :=
  { mse_per_channel := fun c =>
      if c < input_components then
        channel_sq_error id img1 img2 c / texel_count img1
      else 0,
    mse_combined := mse_combined_of id input_components img1 img2,
    psnr_combined :=
      psnr_of log_transform (mse_combined_of id input_components img1 img2),
    psnr_per_fstop := fun n =>
      if compute_hdr_metrics ∧ fstop_lo ≤ n ∧ n ≤ fstop_hi then
        psnr_of log_transform (mse_combined_of (expose n) input_components img1 img2)
      else ⊤ }

/-- Embedding of the return type of the `compute_error_metrics`
declaration (astcenccli_internal.h:170: `void compute_error_metrics(…)`):
the C function returns `void`, i.e. a value of the one-element type; its
doc comment (astcenccli_internal.h:168) says the metrics "should be
logged to stdout". -/
def compute_error_metrics_cpp_return : Type := Unit

/-- C6's invariant, read off §3: exactly one of the two storage arrays is
populated, all three spatial dimensions are at least 1, and the (single,
hence side-uniform) padding is non-negative. -/
def image_valid (img : astc_codec_image) : Prop :=
  (img.data8.isSome ↔ img.data16.isNone) ∧
  1 ≤ img.xsize ∧ 1 ≤ img.ysize ∧ 1 ≤ img.zsize ∧ 0 ≤ img.padding

/-! ### Properties of the interior clamp -/

/-- Clamping is idempotent. -/
theorem clamp_to_interior_idem (p s x : Nat) :
    clamp_to_interior p s (clamp_to_interior p s x) = clamp_to_interior p s x := by
  unfold clamp_to_interior
  omega

/-- On an interior coordinate the clamp is the identity. -/
theorem clamp_to_interior_of_interior (p s x : Nat)
    (h1 : p ≤ x) (h2 : x < p + s) : clamp_to_interior p s x = x := by
  unfold clamp_to_interior
  omega

/-- The clamp of any padded-grid coordinate stays inside the padded grid. -/
theorem clamp_to_interior_lt_extent (p s x : Nat) (h : 0 < s + 2 * p) :
    clamp_to_interior p s x < s + 2 * p := by
  unfold clamp_to_interior
  omega

/-- For a non-empty interior span, the clamp lands in the interior. -/
theorem clamp_to_interior_mem (p s x : Nat) (h : 1 ≤ s) :
    p ≤ clamp_to_interior p s x ∧ clamp_to_interior p s x < p + s := by
  unfold clamp_to_interior
  omega

/-- The clamp is the interior coordinate nearest to `x`: no interior
coordinate is strictly closer. -/
theorem clamp_to_interior_nearest (p s x i : Nat)
    (h1 : p ≤ i) (h2 : i < p + s) :
    Nat.dist x (clamp_to_interior p s x) ≤ Nat.dist x i := by
  unfold clamp_to_interior
  simp [Nat.dist]
  omega

/-! ### Properties of the padding fill -/

/-- One padding fill absorbs a preceding one. -/
theorem fill_data_idem (p xs ys zs : Nat) (d : Nat → Nat → Nat → Texel Nat) :
    fill_data p xs ys zs (fill_data p xs ys zs d) = fill_data p xs ys zs d := by
  funext z y x
  simp only [fill_data]
  by_cases hc : z < zs ∧ y < ys + 2 * p ∧ x < xs + 2 * p
  · have hy : clamp_to_interior p ys y < ys + 2 * p :=
      clamp_to_interior_lt_extent p ys y (by omega)
    have hx : clamp_to_interior p xs x < xs + 2 * p :=
      clamp_to_interior_lt_extent p xs x (by omega)
    have hcc : z < zs ∧ clamp_to_interior p ys y < ys + 2 * p ∧
        clamp_to_interior p xs x < xs + 2 * p := ⟨hc.1, hy, hx⟩
    rw [if_pos hc, if_pos hc, if_pos hcc, clamp_to_interior_idem,
      clamp_to_interior_idem]
  · simp only [if_neg hc]

/-- With zero padding the fill rewrites every cell with its own value. -/
theorem fill_data_zero_padding (xs ys zs : Nat) (d : Nat → Nat → Nat → Texel Nat) :
    fill_data 0 xs ys zs d = d := by
  funext z y x
  unfold fill_data
  by_cases hc : z < zs ∧ y < ys + 2 * 0 ∧ x < xs + 2 * 0
  · rw [if_pos hc, clamp_to_interior_of_interior 0 ys y (Nat.zero_le y) (by omega),
      clamp_to_interior_of_interior 0 xs x (Nat.zero_le x) (by omega)]
  · rw [if_neg hc]

/-- The populated 8-bit storage array, or the zero array if 8-bit storage
is null. -/
def image_data8 (img : astc_codec_image) : Nat → Nat → Nat → Texel Nat :=
  img.data8.getD fun _ _ _ => zero_texel

/-- The populated 16-bit storage array, or the zero array if 16-bit
storage is null. -/
def image_data16 (img : astc_codec_image) : Nat → Nat → Nat → Texel Nat :=
  img.data16.getD fun _ _ _ => zero_texel

/-- The fill leaves every interior cell of every slice with its own value. -/
theorem fill_data_interior (p xs ys zs : Nat)
    (d : Nat → Nat → Nat → Texel Nat) (z y x : Nat)
    (hy1 : p ≤ y) (hy2 : y < p + ys) (hx1 : p ≤ x) (hx2 : x < p + xs) :
    fill_data p xs ys zs d z y x = d z y x := by
  unfold fill_data
  by_cases hz : z < zs
  · have hc : z < zs ∧ y < ys + 2 * p ∧ x < xs + 2 * p := ⟨hz, by omega, by omega⟩
    rw [if_pos hc, clamp_to_interior_of_interior p ys y hy1 hy2,
      clamp_to_interior_of_interior p xs x hx1 hx2]
  · rw [if_neg (by tauto)]

/-- C3: `fill_padding` is idempotent — running the padding fill twice
yields, field for field and sample for sample, the image produced by
running it once. -/
theorem fill_image_padding_area_idempotent (img : astc_codec_image) :
    fill_image_padding_area (fill_image_padding_area img) =
      fill_image_padding_area img := by
  simp only [fill_image_padding_area, Option.map_map]
  have h : fill_data img.padding img.xsize img.ysize img.zsize ∘
      fill_data img.padding img.xsize img.ysize img.zsize =
      fill_data img.padding img.xsize img.ysize img.zsize :=
    funext fun d => fill_data_idem _ _ _ _ d
  rw [h]

/-- C9: `fill_padding` writes only the border — the dimensions, the
padding, the storage mode, and every interior sample of both storage
arrays are unchanged, and with `padding = 0` the whole call is a no-op
returning the image unchanged. -/
theorem fill_image_padding_area_frame (img : astc_codec_image) :
    ((fill_image_padding_area img).xsize = img.xsize ∧
     (fill_image_padding_area img).ysize = img.ysize ∧
     (fill_image_padding_area img).zsize = img.zsize ∧
     (fill_image_padding_area img).padding = img.padding) ∧
    ((fill_image_padding_area img).data8.isSome = img.data8.isSome ∧
     (fill_image_padding_area img).data16.isSome = img.data16.isSome) ∧
    (∀ z y x, img.padding ≤ y → y < img.padding + img.ysize →
      img.padding ≤ x → x < img.padding + img.xsize →
      image_data8 (fill_image_padding_area img) z y x = image_data8 img z y x ∧
      image_data16 (fill_image_padding_area img) z y x = image_data16 img z y x) ∧
    (img.padding = 0 → fill_image_padding_area img = img) := by
  refine ⟨⟨rfl, rfl, rfl, rfl⟩, ⟨?_, ?_⟩, ?_, ?_⟩
  · cases h : img.data8 <;> simp [fill_image_padding_area, h]
  · cases h : img.data16 <;> simp [fill_image_padding_area, h]
  · intro z y x hy1 hy2 hx1 hx2
    constructor
    · unfold image_data8 fill_image_padding_area
      cases h8 : img.data8 with
      | none => rfl
      | some d =>
        simpa using fill_data_interior img.padding img.xsize img.ysize
          img.zsize d z y x hy1 hy2 hx1 hx2
    · unfold image_data16 fill_image_padding_area
      cases h16 : img.data16 with
      | none => rfl
      | some d =>
        simpa using fill_data_interior img.padding img.xsize img.ysize
          img.zsize d z y x hy1 hy2 hx1 hx2
  · intro h0
    unfold fill_image_padding_area
    rw [h0]
    have h : fill_data 0 img.xsize img.ysize img.zsize = id :=
      funext fun d => fill_data_zero_padding _ _ _ d
    rw [h, Option.map_id]
    simp only [id_eq]
    rw [← h0]

/-- C9 witness: the frame theorem at a concrete 4×4, padding-1 image. -/
theorem fill_image_padding_area_frame_witness :
    image_data8
      (fill_image_padding_area
        { data8 := some fun z y x => ⟨x, y, z, 255⟩, data16 := none,
          xsize := 4, ysize := 4, zsize := 1, padding := 1,
          input_averages := none, input_variances := none,
          input_alpha_averages := none, linearize_srgb := 0 }) 0 1 1 =
    image_data8
      { data8 := some fun z y x => ⟨x, y, z, 255⟩, data16 := none,
        xsize := 4, ysize := 4, zsize := 1, padding := 1,
        input_averages := none, input_variances := none,
        input_alpha_averages := none, linearize_srgb := 0 } 0 1 1 :=
  ((fill_image_padding_area_frame _).2.2.1 0 1 1 (by norm_num) (by norm_num)
    (by norm_num) (by norm_num)).1

/-- C2: after `fill_padding`, every cell of the padded grid of every 2D
slice — in particular every border cell and every corner cell — holds
the original value of the interior cell at the per-axis clamped
coordinates; those coordinates are interior, and on each axis no
interior coordinate is closer, so the inherited cell is the nearest
interior cell (the nearest interior corner for corner cells). -/
theorem fill_image_padding_area_border (img : astc_codec_image)
    (z y x : Nat) (hz : z < img.zsize)
    (hy : y < img.ysize + 2 * img.padding)
    (hx : x < img.xsize + 2 * img.padding) :
    (image_data8 (fill_image_padding_area img) z y x =
      image_data8 img z (clamp_to_interior img.padding img.ysize y)
        (clamp_to_interior img.padding img.xsize x) ∧
     image_data16 (fill_image_padding_area img) z y x =
      image_data16 img z (clamp_to_interior img.padding img.ysize y)
        (clamp_to_interior img.padding img.xsize x)) ∧
    (1 ≤ img.ysize →
      img.padding ≤ clamp_to_interior img.padding img.ysize y ∧
      clamp_to_interior img.padding img.ysize y < img.padding + img.ysize) ∧
    (1 ≤ img.xsize →
      img.padding ≤ clamp_to_interior img.padding img.xsize x ∧
      clamp_to_interior img.padding img.xsize x < img.padding + img.xsize) ∧
    (∀ j, img.padding ≤ j → j < img.padding + img.ysize →
      Nat.dist y (clamp_to_interior img.padding img.ysize y) ≤ Nat.dist y j) ∧
    (∀ i, img.padding ≤ i → i < img.padding + img.xsize →
      Nat.dist x (clamp_to_interior img.padding img.xsize x) ≤ Nat.dist x i) := by
  refine ⟨⟨?_, ?_⟩, fun h => clamp_to_interior_mem _ _ _ h,
    fun h => clamp_to_interior_mem _ _ _ h,
    fun j h1 h2 => clamp_to_interior_nearest _ _ _ _ h1 h2,
    fun i h1 h2 => clamp_to_interior_nearest _ _ _ _ h1 h2⟩
  · unfold image_data8 fill_image_padding_area
    cases h8 : img.data8 with
    | none => rfl
    | some d =>
      simp only [Option.map_some', Option.getD_some, fill_data,
        if_pos (show z < img.zsize ∧ y < img.ysize + 2 * img.padding ∧
          x < img.xsize + 2 * img.padding from ⟨hz, hy, hx⟩)]
  · unfold image_data16 fill_image_padding_area
    cases h16 : img.data16 with
    | none => rfl
    | some d =>
      simp only [Option.map_some', Option.getD_some, fill_data,
        if_pos (show z < img.zsize ∧ y < img.ysize + 2 * img.padding ∧
          x < img.xsize + 2 * img.padding from ⟨hz, hy, hx⟩)]

/-- C2 witness: the border theorem at the padded top-left corner cell of
a concrete 4×4, padding-1 image, whose nearest interior corner is (1,1). -/
theorem fill_image_padding_area_border_witness :
    image_data8
      (fill_image_padding_area
        { data8 := some fun z y x => ⟨x, y, z, 255⟩, data16 := none,
          xsize := 4, ysize := 4, zsize := 1, padding := 1,
          input_averages := none, input_variances := none,
          input_alpha_averages := none, linearize_srgb := 0 }) 0 0 0 =
    image_data8
      { data8 := some fun z y x => ⟨x, y, z, 255⟩, data16 := none,
        xsize := 4, ysize := 4, zsize := 1, padding := 1,
        input_averages := none, input_variances := none,
        input_alpha_averages := none, linearize_srgb := 0 } 0
      (clamp_to_interior 1 4 0) (clamp_to_interior 1 4 0) :=
  ((fill_image_padding_area_border _ 0 0 0 (by norm_num) (by norm_num)
    (by norm_num)).1).1

/-- C6: every buffer produced by `alloc_image` (for validated extents,
§4.1: "all dimension arguments are assumed already validated by the
caller") or by the flat-array converters satisfies the §3 invariant —
exactly one storage array populated, extents at least 1, single
non-negative padding — and `fill_image_padding_area` preserves it; the
metrics engine takes its images by constant reference and returns values
only, so it cannot disturb it. -/
theorem image_valid_preserved :
    (∀ b x y z p : Nat, 1 ≤ x → 1 ≤ y → 1 ≤ z →
      image_valid (alloc_image b x y z p)) ∧
    (∀ img : astc_codec_image, image_valid img →
      image_valid (fill_image_padding_area img)) ∧
    (∀ (s : List (Texel Nat)) (w h p : Nat) (flip : Bool), 1 ≤ w → 1 ≤ h →
      image_valid (astc_img_from_unorm8x4_array s w h p flip)) ∧
    (∀ (enc : ℚ → Nat) (s : List (Texel ℚ)) (w h p : Nat) (flip : Bool),
      1 ≤ w → 1 ≤ h →
      image_valid (astc_img_from_floatx4_array enc s w h p flip)) := by
  refine ⟨?_, ?_, ?_, ?_⟩
  · intro b x y z p hx hy hz
    by_cases hb : b = 8 <;>
      simp [image_valid, alloc_image, hb, hx, hy, hz]
  · intro img ⟨hstore, hx, hy, hz, hp⟩
    refine ⟨?_, hx, hy, hz, hp⟩
    cases h8 : img.data8 <;> cases h16 : img.data16 <;>
      simp [fill_image_padding_area, h8, h16] <;>
      simp [h8, h16] at hstore
  · intro s w h p flip hw hh
    exact ⟨by simp [astc_img_from_unorm8x4_array], by simpa [astc_img_from_unorm8x4_array] using ⟨hw, hh⟩⟩
  · intro enc s w h p flip hw hh
    exact ⟨by simp [astc_img_from_floatx4_array], by simpa [astc_img_from_floatx4_array] using ⟨hw, hh⟩⟩

/-- C6 witness: the invariant theorem applied to a concrete 8-bit
4×4×1 allocation with padding 1, and to the padding fill of that
allocation. -/
theorem image_valid_preserved_witness :
    image_valid (alloc_image 8 4 4 1 1) ∧
    image_valid (fill_image_padding_area (alloc_image 8 4 4 1 1)) := by
  have h1 : image_valid (alloc_image 8 4 4 1 1) :=
    image_valid_preserved.1 8 4 4 1 1 (by norm_num) (by norm_num) (by norm_num)
  exact ⟨h1, image_valid_preserved.2.1 _ h1⟩

/-- Comparing any image with itself gives zero combined MSE. -/
theorem mse_combined_of_self (view : ℚ → ℚ) (comps : Nat)
    (img : astc_codec_image) : mse_combined_of view comps img img = 0 := by
  unfold mse_combined_of channel_sq_error
  simp

/-- C4: `compute_error_metrics` on an image compared against itself
reports `mse_combined = 0` and `psnr_combined = ⊤`, the sentinel
denoting +infinity, whatever the HDR flag, component count, f-stop
bounds and logarithmic transform. -/
theorem compute_error_metrics_self (f : ℚ → ℚ) (hdr : Bool) (comps : Nat)
    (img : astc_codec_image) (lo hi : Int) :
    (compute_error_metrics f hdr comps img img lo hi).mse_combined = 0 ∧
    (compute_error_metrics f hdr comps img img lo hi).psnr_combined = ⊤ := by
  constructor
  · simpa [compute_error_metrics] using mse_combined_of_self id comps img
  · simp [compute_error_metrics, psnr_of, mse_combined_of_self]

/-- C5 counterexample: the value a `compute_error_metrics` call returns
— a value of the declared `void` return type — cannot be the §6 metric
report: there is no bijection between the one-element return type and
the report type, so the metrics are not returned as a value object
(per astcenccli_internal.h:168 they are logged to stdout instead). -/
theorem compute_error_metrics_return_not_report :
    ¬ Nonempty (compute_error_metrics_cpp_return ≃ error_metrics_report) := by
  rintro ⟨e⟩
  have hu : ∀ u v : compute_error_metrics_cpp_return, u = v := by
    intro u v
    cases u
    cases v
    rfl
  have h : (⟨fun _ => 0, 0, ⊤, fun _ => ⊤⟩ : error_metrics_report) =
      ⟨fun _ => 0, 1, ⊤, fun _ => ⊤⟩ :=
    e.symm.injective (hu _ _)
  have h2 := congrArg error_metrics_report.mse_combined h
  norm_num at h2

/-- C5 amended: `compute_error_metrics` is declared returning `void`
(astcenccli_internal.h:170), so its return value carries no information
— any two return values are equal — and the computed metric values
reach the caller only through the logging side effect its documentation
describes, not as a returned value object. -/
theorem compute_error_metrics_return_trivial :
    ∀ u v : compute_error_metrics_cpp_return, u = v := by
  intro u v
  cases u
  cases v
  rfl

/-- C8: the bitness enforcement is a pure lookup on the filename's
extension returning 8 or 16: extensions in the high-bit-depth format
table yield 16, and every other extension — the 8-bit-only formats and
the unknown ones alike — yields 8. -/
theorem get_output_filename_enforced_bitness_spec
    (hi_depth_formats : List String) (filename : String) :
    (get_output_filename_enforced_bitness hi_depth_formats filename = 8 ∨
     get_output_filename_enforced_bitness hi_depth_formats filename = 16) ∧
    (filename_extension filename ∈ hi_depth_formats →
      get_output_filename_enforced_bitness hi_depth_formats filename = 16) ∧
    (filename_extension filename ∉ hi_depth_formats →
      get_output_filename_enforced_bitness hi_depth_formats filename = 8) := by
  unfold get_output_filename_enforced_bitness
  by_cases h : filename_extension filename ∈ hi_depth_formats <;> simp [h]

/-- C8 witness: the lookup theorem at concrete filenames — a
high-bit-depth extension gives 16, an LDR extension gives 8. -/
theorem get_output_filename_enforced_bitness_spec_witness :
    get_output_filename_enforced_bitness ["exr", "ktx"] "image.exr" = 16 ∧
    get_output_filename_enforced_bitness ["exr", "ktx"] "image.png" = 8 :=
  ⟨(get_output_filename_enforced_bitness_spec ["exr", "ktx"] "image.exr").2.1
      (by decide),
   (get_output_filename_enforced_bitness_spec ["exr", "ktx"] "image.png").2.2
      (by decide)⟩

/-- A 1×1 8-bit image whose only texel is (0,0,0,0): green, blue and
alpha all equal red at every texel. -/
def gray_zero_image : astc_codec_image :=
  { data8 := some fun _ _ _ => ⟨0, 0, 0, 0⟩, data16 := none,
    xsize := 1, ysize := 1, zsize := 1, padding := 0,
    input_averages := none, input_variances := none,
    input_alpha_averages := none, linearize_srgb := 0 }

/-- A 1×1 8-bit image whose only texel is full white (255,255,255,255):
luminance-like with alpha at full opacity. -/
def white_image : astc_codec_image :=
  { data8 := some fun _ _ _ => ⟨255, 255, 255, 255⟩, data16 := none,
    xsize := 1, ysize := 1, zsize := 1, padding := 0,
    input_averages := none, input_variances := none,
    input_alpha_averages := none, linearize_srgb := 0 }

/-- A 1×1 8-bit image whose only texel is (10,20,30,40): green/blue and
alpha all carry information of their own. -/
def rgba_image : astc_codec_image :=
  { data8 := some fun _ _ _ => ⟨10, 20, 30, 40⟩, data16 := none,
    xsize := 1, ysize := 1, zsize := 1, padding := 0,
    input_averages := none, input_variances := none,
    input_alpha_averages := none, linearize_srgb := 0 }

/-- C7 counterexample: in `gray_zero_image` every texel has green, blue
and alpha equal to red, yet the channel count is 2, not 1 — the
detection treats an alpha below full opacity as an alpha in use even
when it copies red. -/
theorem determine_image_channels_equal_not_one :
    (∀ z, z < gray_zero_image.zsize → ∀ y, y < gray_zero_image.ysize →
      ∀ x, x < gray_zero_image.xsize →
        (interior_texel gray_zero_image z y x).g =
          (interior_texel gray_zero_image z y x).r ∧
        (interior_texel gray_zero_image z y x).b =
          (interior_texel gray_zero_image z y x).r ∧
        (interior_texel gray_zero_image z y x).a =
          (interior_texel gray_zero_image z y x).r) ∧
    determine_image_channels gray_zero_image = 2 := by
  decide

/-- A 1×1 8-bit image whose only texel is (10,20,30,255): green/blue
carry information of their own while alpha sits at full opacity. -/
def color_image : astc_codec_image :=
  { data8 := some fun _ _ _ => ⟨10, 20, 30, 255⟩, data16 := none,
    xsize := 1, ysize := 1, zsize := 1, padding := 0,
    input_averages := none, input_variances := none,
    input_alpha_averages := none, linearize_srgb := 0 }

/-- C7 amended: `determine_image_channels` returns a value in
{1, 2, 3, 4}, and the complete case analysis: an image that is
luminance-like (G == R and B == R at every interior texel) reports 1
when its alpha is at full opacity everywhere and 2 otherwise; an image
whose green or blue differs from red at some interior texel reports 3
when its alpha is at full opacity everywhere and 4 otherwise — so an
image whose alpha carries information reports 4 exactly when green/blue
carry information of their own too. -/
theorem determine_image_channels_spec (img : astc_codec_image) :
    (determine_image_channels img = 1 ∨ determine_image_channels img = 2 ∨
     determine_image_channels img = 3 ∨ determine_image_channels img = 4) ∧
    (all_interior_texels img (fun t => t.g == t.r && t.b == t.r) = true →
     all_interior_texels img (fun t => t.a == alpha_one img) = true →
     determine_image_channels img = 1) ∧
    (all_interior_texels img (fun t => t.g == t.r && t.b == t.r) = true →
     all_interior_texels img (fun t => t.a == alpha_one img) = false →
     determine_image_channels img = 2) ∧
    (all_interior_texels img (fun t => t.g == t.r && t.b == t.r) = false →
     all_interior_texels img (fun t => t.a == alpha_one img) = true →
     determine_image_channels img = 3) ∧
    (all_interior_texels img (fun t => t.g == t.r && t.b == t.r) = false →
     all_interior_texels img (fun t => t.a == alpha_one img) = false →
     determine_image_channels img = 4) := by
  unfold determine_image_channels
  by_cases h1 : all_interior_texels img (fun t => t.g == t.r && t.b == t.r) <;>
    by_cases h2 : all_interior_texels img (fun t => t.a == alpha_one img) <;>
      simp [h1, h2]

/-- C7 witness: the amended theorem's four cases at concrete images —
the white image reports 1, the all-zero gray image 2, the full-opacity
color image 3, and the (10,20,30,40) image 4. -/
theorem determine_image_channels_spec_witness :
    determine_image_channels white_image = 1 ∧
    determine_image_channels gray_zero_image = 2 ∧
    determine_image_channels color_image = 3 ∧
    determine_image_channels rgba_image = 4 :=
  ⟨(determine_image_channels_spec white_image).2.1 (by decide) (by decide),
   (determine_image_channels_spec gray_zero_image).2.2.1 (by decide) (by decide),
   (determine_image_channels_spec color_image).2.2.2.1 (by decide) (by decide),
   (determine_image_channels_spec rgba_image).2.2.2.2 (by decide) (by decide)⟩

/-! ### Flat-array round trips -/

/-- Composing texel maps. -/
theorem texel_map_map {α β γ : Type} (f : β → γ) (g : α → β) (t : Texel α) :
    texel_map f (texel_map g t) = texel_map (fun v => f (g v)) t := rfl

/-- `tile_rows` only reads the grid inside the tiled rectangle. -/
theorem tile_rows_congr {α : Type} (w : Nat) (g g' : Nat → Nat → α) :
    ∀ h : Nat, (∀ y, y < h → ∀ x, x < w → g y x = g' y x) →
      tile_rows w g h = tile_rows w g' h := by
  intro h
  induction h with
  | zero => intro _; rfl
  | succ n ih =>
    intro hg
    rw [tile_rows, tile_rows, ih fun y hy x hx => hg y (by omega) x hx]
    congr 1
    exact List.map_congr_left fun x hx => hg n (by omega) x (List.mem_range.mp hx)

/-- Reading `w` consecutive entries starting at `k` reproduces the
corresponding segment of the list. -/
theorem map_range_getD {α : Type} (s : List α) (d : α) (k w : Nat)
    (hkw : k + w ≤ s.length) :
    (List.range w).map (fun x => s.getD (k + x) d) = (s.drop k).take w := by
  induction w with
  | zero => simp
  | succ n ih =>
    rw [List.range_succ, List.map_append, ih (by omega), List.take_succ]
    simp only [List.map_cons, List.map_nil]
    congr 1
    have hl : k + n < s.length := by omega
    rw [List.getElem?_drop, List.getD_eq_getElem?_getD,
      List.getElem?_eq_getElem hl]
    rfl

/-- Tiling the grid that reads list entry `y*w + x` at cell (y, x)
reproduces the first `w*h` entries of the list. -/
theorem tile_rows_getD {α : Type} (s : List α) (d : α) (w : Nat) :
    ∀ h : Nat, w * h ≤ s.length →
      tile_rows w (fun y x => s.getD (y * w + x) d) h = s.take (w * h) := by
  intro h
  induction h with
  | zero => intro _; simp [tile_rows]
  | succ n ih =>
    intro hle
    have hn : w * n + w ≤ s.length := by rw [← Nat.mul_succ]; exact hle
    rw [tile_rows, ih (by omega),
      map_range_getD s d (n * w) w (by rw [Nat.mul_comm n w]; exact hn),
      Nat.mul_comm n w,
      Nat.mul_succ, List.take_add]

/-- The 8-bit flat-array round trip, bit-exact. -/
theorem unorm8x4_roundtrip (s : List (Texel Nat)) (w h p : Nat)
    (hs : s.length = w * h) :
    unorm8x4_array_from_astc_img
      (astc_img_from_unorm8x4_array s w h p false) false = s := by
  unfold unorm8x4_array_from_astc_img astc_img_from_unorm8x4_array
  simp only [Option.getD_some]
  rw [tile_rows_congr w _ (fun y x => s.getD (y * w + x) zero_texel) h ?_]
  · rw [tile_rows_getD s zero_texel w h (by omega), ← hs, List.take_length]
  · intro y hy x hx
    have hcond : p ≤ y + p ∧ y + p < p + h ∧ p ≤ x + p ∧ x + p < p + w := by
      omega
    simp only [source_row, if_neg Bool.false_ne_true, if_pos hcond,
      Nat.add_sub_cancel]

/-- The float flat-array round trip factors as mapping the abstract
16-bit encode/decode pair over every channel of every texel. -/
theorem floatx4_roundtrip (enc : ℚ → Nat) (dec : Nat → ℚ)
    (s : List (Texel ℚ)) (w h p : Nat) (hs : s.length = w * h) :
    floatx4_array_from_astc_img dec
      (astc_img_from_floatx4_array enc s w h p false) false =
      s.map (texel_map fun v => dec (enc v)) := by
  unfold floatx4_array_from_astc_img astc_img_from_floatx4_array
  simp only [Option.getD_some]
  rw [tile_rows_congr w _
    (fun y x => (s.map (texel_map fun v => dec (enc v))).getD (y * w + x)
      (texel_map (fun v => dec (enc v)) ⟨0, 0, 0, 0⟩)) h ?_]
  · rw [tile_rows_getD _ _ w h (by simpa using by omega)]
    rw [show w * h = (s.map (texel_map fun v => dec (enc v))).length by
      simpa using hs.symm]
    exact List.take_length _
  · intro y hy x hx
    have hcond : p ≤ y + p ∧ y + p < p + h ∧ p ≤ x + p ∧ x + p < p + w := by
      omega
    simp only [source_row, if_neg Bool.false_ne_true, if_pos hcond,
      Nat.add_sub_cancel, texel_map_map]
    rw [List.getD_eq_getElem?_getD, List.getD_eq_getElem?_getD,
      List.getElem?_map]
    cases s[y * w + x]? <;> rfl

/-- Channelwise closeness of two rational texels: each channel of `t` is
within `ulp` (evaluated at the reference sample) of the same channel of
`u`. -/
def texel_within (ulp : ℚ → ℚ) (t u : Texel ℚ) : Prop :=
  |t.r - u.r| ≤ ulp u.r ∧ |t.g - u.g| ≤ ulp u.g ∧
  |t.b - u.b| ≤ ulp u.b ∧ |t.a - u.a| ≤ ulp u.a

/-- C1: flattening the buffer built from a flat interleaved 4-channel
array, with no y-flip in either direction, returns the original array —
bit-exact in the 8-bit unorm mode, and in the float mode channelwise
within the rounding bound of the abstract 32-bit-float-to-16-bit sample
conversion (the "1 ULP-equivalent" conversion: any `enc`/`dec` pair
whose round trip moves a sample by at most `ulp` of it). -/
theorem flat_array_roundtrip :
    (∀ (s : List (Texel Nat)) (w h p : Nat), s.length = w * h →
      unorm8x4_array_from_astc_img
        (astc_img_from_unorm8x4_array s w h p false) false = s) ∧
    (∀ (enc : ℚ → Nat) (dec : Nat → ℚ) (ulp : ℚ → ℚ),
      (∀ q : ℚ, |dec (enc q) - q| ≤ ulp q) →
      ∀ (s : List (Texel ℚ)) (w h p : Nat), s.length = w * h →
        ∀ i, i < s.length →
          texel_within ulp
            ((floatx4_array_from_astc_img dec
                (astc_img_from_floatx4_array enc s w h p false) false).getD i
              ⟨0, 0, 0, 0⟩)
            (s.getD i ⟨0, 0, 0, 0⟩)) := by
  constructor
  · exact unorm8x4_roundtrip
  · intro enc dec ulp hround s w h p hs i hi
    rw [floatx4_roundtrip enc dec s w h p hs]
    have hi' : i < (s.map (texel_map fun v => dec (enc v))).length := by
      simpa using hi
    rw [List.getD_eq_getElem?_getD, List.getD_eq_getElem?_getD,
      List.getElem?_eq_getElem hi', List.getElem?_eq_getElem hi,
      List.getElem_map]
    exact ⟨hround _, hround _, hround _, hround _⟩

/-- C1 witness: the round-trip theorem at a concrete 2×2 image with
padding 1 — the 8-bit half bit-exactly, the float half with the trivial
encode/decode pair whose per-sample round-trip error is bounded by the
sample's own magnitude. -/
theorem flat_array_roundtrip_witness :
    unorm8x4_array_from_astc_img
      (astc_img_from_unorm8x4_array
        [⟨255, 0, 0, 255⟩, ⟨0, 255, 0, 255⟩, ⟨0, 0, 255, 255⟩,
         ⟨255, 255, 255, 255⟩] 2 2 1 false) false =
      [⟨255, 0, 0, 255⟩, ⟨0, 255, 0, 255⟩, ⟨0, 0, 255, 255⟩,
       ⟨255, 255, 255, 255⟩] ∧
    texel_within (fun q => |q|)
      ((floatx4_array_from_astc_img (fun _ => 0)
          (astc_img_from_floatx4_array (fun _ => 0)
            [⟨1, 0, 0, 1⟩, ⟨0, 1, 0, 1⟩, ⟨0, 0, 1, 1⟩, ⟨1, 1, 1, 1⟩]
            2 2 1 false) false).getD 0 ⟨0, 0, 0, 0⟩)
      ([⟨1, 0, 0, 1⟩, ⟨0, 1, 0, 1⟩, ⟨0, 0, 1, 1⟩, ⟨1, 1, 1, 1⟩].getD 0
        ⟨0, 0, 0, 0⟩) :=
  ⟨flat_array_roundtrip.1
      [⟨255, 0, 0, 255⟩, ⟨0, 255, 0, 255⟩, ⟨0, 0, 255, 255⟩,
       ⟨255, 255, 255, 255⟩] 2 2 1 (by decide),
   flat_array_roundtrip.2 (fun _ => 0) (fun _ => 0) (fun q => |q|)
      (fun q => by simp)
      [⟨1, 0, 0, 1⟩, ⟨0, 1, 0, 1⟩, ⟨0, 0, 1, 1⟩, ⟨1, 1, 1, 1⟩] 2 2 1
      (by decide) 0 (by decide)⟩
